import Mathlib

/-!
Shallow embedding of the `ru_myougiden` indexing and search core
(`src/indexer.rs`, `src/main.rs`).

The XML event source (`xml::EventReader`) is modelled as a finite list of
events.  `parser.next()` on an exhausted list yields `EndDocument`, matching
the xml-rs behaviour of repeatedly returning `EndDocument` once the document
has ended; a read/syntax error from the underlying reader (in particular a
premature end of the byte stream inside an element) is modelled as the
explicit event `err`, matching xml-rs returning `Err(..)` from `next()`.

Rust panics (all the `.unwrap()` calls in `create_index` and
`extract_next_string`) are modelled as explicit `PanicKind` outcomes, and
the infinite loop that `extract_next_string` would enter if the event list
were exhausted without a closing leaf tag is modelled by the explicit
`ExtractRes.hang` outcome.  The romanizer (`wana_kana::to_romaji`, an
external crate whose source is not part of this repository) is threaded as
an abstract function parameter `rom : String → String`.
-/

/-- One event from the XML event stream, identified by local tag name
(attributes are never inspected by the source). `other` stands for the
event kinds both loops ignore (StartDocument, Whitespace, CData, comments,
processing instructions). `err` stands for `parser.next()` returning
`Err(..)`. -/
inductive XmlEvt where
  | startElement (name : String)
  | endElement (name : String)
  | characters (text : String)
  | endDocument
  | err
  | other
deriving Repr, DecidableEq

/-- The flattened multi-valued record handed to tantivy, one list per schema
field, in insertion order (`tantivy::Document` with the schema of
`create_schema`). -/
structure Document where
  id : List Int
  word : List String
  reading : List String
  reading_romaji : List String
  meaning : List String
  pos : List String
  field : List String
deriving Repr, DecidableEq

/-- Model of `tantivy::Document::default()` — the empty document. -/
def Document.empty : Document :=
  { id := [], word := [], reading := [], reading_romaji := [],
    meaning := [], pos := [], field := [] }

/-- The distinct `.unwrap()` panic sites of the indexer. -/
inductive PanicKind where
  /-- Panic of `parser.next().unwrap()` inside `extract_next_string` on an `Err`. -/
  | extractErrUnwrap
  /-- Panic of `entry_id.parse::<i64>().unwrap()` in the `ent_seq` handler. -/
  | entSeqParseUnwrap
  /-- Panic of `current_entry.as_mut().unwrap()` or
  `current_entry.take().unwrap()` while `current_entry` was `None`. -/
  | currentEntryUnwrap
deriving Repr, DecidableEq

/-- Result of `extract_next_string`: a normal return carrying the collected
text and the unconsumed suffix of the stream, a panic (its
`parser.next().unwrap()` hit an `Err` event), or divergence (the event list
was exhausted, so the source keeps yielding `EndDocument`, which the
function ignores forever). -/
inductive ExtractRes where
  | ok (buf : String) (rest : List XmlEvt)
  | panicked
  | hang
deriving Repr, DecidableEq

/-- The end-tag names `extract_next_string` breaks on (indexer.rs:169-174). -/
def isLeafName (n : String) : Bool :=
  n == "keb" || n == "reb" || n == "gloss" || n == "pos" ||
    n == "field" || n == "ent_seq"

/-- Model of `extract_next_string` (indexer.rs:161-183): concatenate the text of
`Characters` events into `buf` until an end-tag with one of the six leaf
names arrives; every other event is ignored. -/
def extractNext (buf : String) : List XmlEvt → ExtractRes
  | [] => .hang
  | .characters s :: rest => extractNext (buf ++ s) rest
  | .endElement n :: rest =>
      if isLeafName n then .ok buf rest else extractNext buf rest
  | .err :: _ => .panicked
  | .startElement _ :: rest => extractNext buf rest
  | .endDocument :: rest => extractNext buf rest
  | .other :: rest => extractNext buf rest

/-- Magnitude of a decimal digit run; `none` if any character is not an
ASCII digit. -/
def parseDigitsAux : List Char → Nat → Option Nat
  | [], acc => some acc
  | c :: rest, acc =>
      if c.isDigit then parseDigitsAux rest (acc * 10 + (c.toNat - 48))
      else none

/-- Rust `str::parse::<i64>()`: optional sign, at least one ASCII digit,
nothing else, and the value must fit in a signed 64-bit integer. -/
def parseI64 (s : String) : Option Int :=
  let core : Option (Bool × List Char) :=
    match s.data with
    | [] => none
    | '+' :: rest => some (false, rest)
    | '-' :: rest => some (true, rest)
    | cs => some (false, cs)
  match core with
  | none => none
  | some (_, []) => none
  | some (neg, cs) =>
      match parseDigitsAux cs 0 with
      | none => none
      | some mag =>
          if neg then
            if mag ≤ 2 ^ 63 then some (-(mag : Int)) else none
          else
            if mag ≤ 2 ^ 63 - 1 then some (mag : Int) else none

/-- Concatenated text of the `characters` events of a list, in order. -/
def charConcat : List XmlEvt → String
  | [] => ""
  | .characters s :: rest => s ++ charConcat rest
  | _ :: rest => charConcat rest

/-- Events `extract_next_string` passes over without stopping: everything
except a leaf-named end-tag (which makes it return) and a reader error
(which makes it panic). -/
def extractSkips : XmlEvt → Bool
  | .endElement n => !isLeafName n
  | .err => false
  | _ => true


/-- Rust `Vec<String>::join("; ")` (used at each `sense` end-tag,
indexer.rs:135-137): the elements interleaved with the fixed separator. -/
def rustJoin : List String → String
  | [] => ""
  | [g] => g
  | g :: gs => g ++ "; " ++ rustJoin gs

/-- Head-cons for split pieces: prepend a character to the first piece. -/
def headCons (c : Char) : List (List Char) → List (List Char)
  | [] => [[c]]
  | p :: ps => (c :: p) :: ps

/-- Rust `str::split("; ")` on the character level: split at each leftmost,
non-overlapping occurrence of the two-character separator `"; "`. -/
def splitSemiChars : List Char → List (List Char)
  | [] => [[]]
  | [c] => headCons c [[]]
  | c1 :: c2 :: rest =>
      if c1 = ';' ∧ c2 = ' ' then [] :: splitSemiChars rest
      else headCons c1 (splitSemiChars (c2 :: rest))

/-- Rust `meaning.split("; ").collect_vec()` (main.rs:317). -/
def rustSplit (s : String) : List String :=
  (splitSemiChars s.data).map (fun l => String.mk l)

/-- Whether a character list contains the separator `"; "` as a
contiguous substring. -/
def hasSepChars : List Char → Bool
  | [] => false
  | [_] => false
  | c1 :: c2 :: rest =>
      if c1 = ';' ∧ c2 = ' ' then true else hasSepChars (c2 :: rest)

/-- Whether a string contains the literal substring `"; "`. -/
def containsSep (s : String) : Bool := hasSepChars s.data

/-- The renderer's recovery of the per-sense meanings from one stored
meaning string (main.rs:317). -/
def renderMeaningTokens (storedMeaning : String) : List String :=
  rustSplit storedMeaning

/-- Mutable state of the `create_index` event loop (indexer.rs:66-74):
the three sense buffers, the in-progress entry, the emitted-entry count,
plus the two observable output channels of the loop — the documents handed
to `index_writer.add_document` and the progress counts printed at every
multiple of 1000. -/
structure LoopState where
  glosses : List String
  poses : List String
  fieldsBuf : List String
  currentEntry : Option Document
  count : Nat
  emitted : List Document
  progress : List Nat
deriving Repr, DecidableEq

/-- Loop state at entry of the `while` loop (indexer.rs:66-74); note that
`current_entry` starts as `Some(tantivy::Document::default())` (line 72). -/
def initState : LoopState :=
  { glosses := [], poses := [], fieldsBuf := [],
    currentEntry := some Document.empty,
    count := 0, emitted := [], progress := [] }

/-- Outcome of one iteration of the `while` loop body. -/
inductive StepRes where
  | next (st : LoopState) (rest : List XmlEvt)
  | stop (st : LoopState)
  | panic (k : PanicKind)
  | hang
deriving Repr, DecidableEq

/-- One iteration of the `create_index` event loop (indexer.rs:76-147),
dispatching on the event just read; `rest` is the not-yet-consumed stream
suffix, from which the leaf handlers pull further events through
`extract_next_string`.  `rom` abstracts `wana_kana`'s `to_romaji`.
A reader error at the top level ends the loop normally (`while let Ok(e)`),
modelled as `stop`. -/
def stepMain (rom : String → String) (st : LoopState) :
    XmlEvt → List XmlEvt → StepRes
  | .startElement n, rest =>
      if n = "entry" then
        .next { st with currentEntry := some Document.empty } rest
      else if n = "sense" then
        .next { st with glosses := [], poses := [], fieldsBuf := [] } rest
      else if n = "ent_seq" then
        match extractNext "" rest with
        | .ok s rest' =>
            match st.currentEntry with
            | none => .panic .currentEntryUnwrap
            | some d =>
                match parseI64 s with
                | none => .panic .entSeqParseUnwrap
                | some v =>
                    .next { st with
                      currentEntry := some { d with id := d.id ++ [v] } } rest'
        | .panicked => .panic .extractErrUnwrap
        | .hang => .hang
      else if n = "keb" then
        match extractNext "" rest with
        | .ok s rest' =>
            match st.currentEntry with
            | none => .panic .currentEntryUnwrap
            | some d =>
                .next { st with
                  currentEntry := some { d with word := d.word ++ [s] } } rest'
        | .panicked => .panic .extractErrUnwrap
        | .hang => .hang
      else if n = "reb" then
        match extractNext "" rest with
        | .ok s rest' =>
            match st.currentEntry with
            | none => .panic .currentEntryUnwrap
            | some d =>
                .next { st with
                  currentEntry := some { d with
                    reading := d.reading ++ [s],
                    reading_romaji := d.reading_romaji ++ [rom s] } } rest'
        | .panicked => .panic .extractErrUnwrap
        | .hang => .hang
      else if n = "gloss" then
        match extractNext "" rest with
        | .ok s rest' => .next { st with glosses := st.glosses ++ [s] } rest'
        | .panicked => .panic .extractErrUnwrap
        | .hang => .hang
      else if n = "pos" then
        match extractNext "" rest with
        | .ok s rest' => .next { st with poses := st.poses ++ [s] } rest'
        | .panicked => .panic .extractErrUnwrap
        | .hang => .hang
      else if n = "field" then
        match extractNext "" rest with
        | .ok s rest' =>
            .next { st with fieldsBuf := st.fieldsBuf ++ [s] } rest'
        | .panicked => .panic .extractErrUnwrap
        | .hang => .hang
      else .next st rest
  | .endElement n, rest =>
      if n = "entry" then
        match st.currentEntry with
        | none => .panic .currentEntryUnwrap
        | some d =>
            .next { st with
              currentEntry := none,
              count := st.count + 1,
              emitted := st.emitted ++ [d],
              progress :=
                if (st.count + 1) % 1000 = 0 then st.progress ++ [st.count + 1]
                else st.progress } rest
      else if n = "sense" then
        match st.currentEntry with
        | none => .next st rest
        | some d =>
            .next { st with
              currentEntry := some { d with
                meaning := d.meaning ++ [rustJoin st.glosses],
                pos := d.pos ++ [rustJoin st.poses],
                field := d.field ++ [rustJoin st.fieldsBuf] } } rest
      else .next st rest
  | .characters _, rest => .next st rest
  | .endDocument, _ => .stop st
  | .err, _ => .stop st
  | .other, rest => .next st rest

/-- Result of running the whole event loop: normal loop exit (first
`EndDocument`, a top-level reader error, or an exhausted source — which
yields `EndDocument`), a panic (with the loop state at the moment of the
panic), or the divergence of `extract_next_string` on an exhausted list. -/
inductive RunRes where
  | finished (st : LoopState)
  | panicked (k : PanicKind) (st : LoopState)
  | hung
deriving Repr, DecidableEq

/-- The `while let Ok(e) = parser.next()` loop of `create_index`
(indexer.rs:76-147), fuel-indexed by the number of iterations; `none`
means the fuel ran out. An exhausted event list makes `parser.next()`
yield `EndDocument` (the xml-rs repeat behaviour), which breaks the loop. -/
def runLoop (rom : String → String) : Nat → LoopState → List XmlEvt → Option RunRes
  | 0, _, _ => none
  | _ + 1, st, [] => some (.finished st)
  | fuel + 1, st, e :: rest =>
      match stepMain rom st e rest with
      | .next st' rest' => runLoop rom fuel st' rest'
      | .stop st' => some (.finished st')
      | .panic k => some (.panicked k st)
      | .hang => some .hung

/-- The Rust return value of `create_index`: `Ok(())` on the normal path,
or a panic that unwinds the call. -/
inductive BuildRet where
  | ok
  | panicked (k : PanicKind)
deriving Repr, DecidableEq

/-- Observable outcome of one `create_index` call (indexer.rs:42-159):
the Rust return value, the set of documents made durable by the final
`commit` (empty when the build panics before reaching it), the progress
counts printed during the loop, and the final `"{count} entries read"`
print (absent when the build panics). -/
structure BuildOutcome where
  ret : BuildRet
  committed : List Document
  progressReports : List Nat
  finalPrint : Option Nat
deriving Repr, DecidableEq

/-- Model of `create_index` (indexer.rs:42-159): run the event loop from the initial
state, then — on normal loop exit — print the final count, commit, and
return `Ok(())`.  A panic aborts before the commit, so nothing becomes
durable.  `none` means the fuel ran out (or `extract_next_string` hung). -/
def create_index (rom : String → String) (fuel : Nat) (evs : List XmlEvt) :
    Option BuildOutcome :=
  match runLoop rom fuel initState evs with
  | none => none
  | some .hung => none
  | some (.panicked k st) =>
      some { ret := .panicked k, committed := [],
             progressReports := st.progress, finalPrint := none }
  | some (.finished st) =>
      some { ret := .ok, committed := st.emitted,
             progressReports := st.progress, finalPrint := some st.count }

/-- Character-level mirror of `rustJoin`. -/
def joinSemiChars : List (List Char) → List Char
  | [] => []
  | [g] => g
  | g :: gs => g ++ ';' :: ' ' :: joinSemiChars gs

/-- The progress counts printed after `n` entries: every multiple of 1000
up to and including `n` (indexer.rs:130-132). -/
def progressMarks : Nat → List Nat
  | 0 => []
  | n + 1 => progressMarks n ++ (if (n + 1) % 1000 = 0 then [n + 1] else [])

/-- Invariant tying the loop counters to the observable outputs: the count
equals the number of emitted documents, and the printed progress is exactly
the every-1000 cadence. -/
def CountInv (st : LoopState) : Prop :=
  st.count = st.emitted.length ∧ st.progress = progressMarks st.count

/-- Whether a run outcome is specifically a panic of one of the
`current_entry` unwraps. -/
def isCurrentEntryPanic : Option RunRes → Bool
  | some (.panicked .currentEntryUnwrap _) => true
  | _ => false

/-- Well-placedness of the entry-scoped tags, seen exactly as the main loop
sees them (events consumed by `extract_next_string` are skipped the same
way the loop skips them): every `ent_seq`/`keb`/`reb` start-tag and every
`entry` end-tag must occur while an entry element is open, i.e. after an
`entry` start-tag that has not yet been closed.  The `Bool` argument is the
openness at the current position; the fuel matches `runLoop`'s. -/
def wellPlaced : Nat → Bool → List XmlEvt → Bool
  | 0, _, _ => true
  | _ + 1, _, [] => true
  | fuel + 1, opn, e :: rest =>
      match e with
      | .startElement n =>
          if n = "entry" then wellPlaced fuel true rest
          else if n = "sense" then wellPlaced fuel opn rest
          else if n = "ent_seq" ∨ n = "keb" ∨ n = "reb" then
            opn && (match extractNext "" rest with
                    | .ok _ rest' => wellPlaced fuel opn rest'
                    | _ => true)
          else if n = "gloss" ∨ n = "pos" ∨ n = "field" then
            (match extractNext "" rest with
             | .ok _ rest' => wellPlaced fuel opn rest'
             | _ => true)
          else wellPlaced fuel opn rest
      | .endElement n =>
          if n = "entry" then opn && wellPlaced fuel false rest
          else wellPlaced fuel opn rest
      | .characters _ => wellPlaced fuel opn rest
      | .other => wellPlaced fuel opn rest
      | .endDocument => true
      | .err => true

/-- The `--field` command line argument (main.rs:22-28). -/
inductive SearchField where
  | word
  | reading
  | readingRomaji
  | meaning
deriving Repr, DecidableEq

/-- The aspects of `tantivy::query::QueryParser` that `search` configures:
the default fields the query targets and the token-combination policy. -/
structure QueryParserModel where
  defaultFields : List String
  conjunctionByDefault : Bool
deriving Repr, DecidableEq

/-- Model of `QueryParser::for_index(index, fields)` — tantivy's parser starts in
its default disjunctive (OR) mode. -/
def queryParserForIndex (flds : List String) : QueryParserModel :=
  { defaultFields := flds, conjunctionByDefault := false }

/-- Model of the `set_conjunction_by_default` call made by `search` (main.rs:247). -/
def setConjunctionByDefault (qp : QueryParserModel) : QueryParserModel :=
  { qp with conjunctionByDefault := true }

/-- The delegated execution: the configured parser plus the result cap
passed to `TopDocs::with_limit` (main.rs:251), whose contract is the top
`limit` matches by descending relevance score. -/
structure SearchCall where
  qp : QueryParserModel
  limit : Nat
deriving Repr, DecidableEq

/-- The query-planning part of `search` (main.rs:238-251): pick the target
fields from the optional field restriction, build the parser, explicitly
switch it to conjunctive semantics, and delegate with a cap of 10. -/
def searchPlan (fieldArg : Option SearchField) : SearchCall :=
  let flds :=
    match fieldArg with
    | some .word => ["word"]
    | some .reading => ["reading"]
    | some .readingRomaji => ["reading_romaji"]
    | some .meaning => ["meaning"]
    | none => ["word", "reading", "reading_romaji", "meaning"]
  { qp := setConjunctionByDefault (queryParserForIndex flds), limit := 10 }

/-- Event stream of the one-entry XML fragment of C4 (the fragment used by
`test_extract_next_string`): ent_seq 1, one kanji form, one reading, one
sense with two glosses, two parts of speech and two fields.  `other`
events stand for the StartDocument and inter-element whitespace events. -/
def c4Events : List XmlEvt :=
  [.other,
   .startElement "entry",
   .startElement "ent_seq", .characters "1", .endElement "ent_seq",
   .startElement "k_ele",
   .startElement "keb", .characters "日本", .endElement "keb",
   .endElement "k_ele",
   .startElement "r_ele",
   .startElement "reb", .characters "にほん", .endElement "reb",
   .endElement "r_ele",
   .startElement "sense",
   .startElement "gloss", .characters "Japan", .endElement "gloss",
   .startElement "gloss", .characters "Japanese", .endElement "gloss",
   .startElement "pos", .characters "noun", .endElement "pos",
   .startElement "pos", .characters "proper noun", .endElement "pos",
   .startElement "field", .characters "place", .endElement "field",
   .startElement "field", .characters "country", .endElement "field",
   .endElement "sense",
   .endElement "entry",
   .endDocument]

/-- The record C4 expects for `c4Events`, parametric in the romanizer. -/
def c4Doc (rom : String → String) : Document :=
  { id := [1], word := ["日本"], reading := ["にほん"],
    reading_romaji := [rom "にほん"],
    meaning := ["Japan; Japanese"], pos := ["noun; proper noun"],
    field := ["place; country"] }

/-- Core lemma for C1: over a prefix of skippable events, the extractor
accumulates exactly the character data, and it returns at the first
leaf-named end-tag with the remaining suffix untouched. -/
theorem extractNext_concat (pre : List XmlEvt) :
    ∀ (buf : String) (t : String) (rest : List XmlEvt),
      isLeafName t = true →
      (∀ e ∈ pre, extractSkips e = true) →
      extractNext buf (pre ++ .endElement t :: rest) =
        .ok (buf ++ charConcat pre) rest := by
  induction pre with
  | nil =>
      intro buf t rest ht _
      simp [extractNext, ht, charConcat, String.append_empty]
  | cons e pre ih =>
      intro buf t rest ht hskip
      have he : extractSkips e = true := hskip e (List.mem_cons_self e pre)
      have hpre : ∀ e' ∈ pre, extractSkips e' = true := by
        intro e' he'
        exact hskip e' (List.mem_cons_of_mem e he')
      cases e with
      | startElement n =>
          simp [extractNext, charConcat, ih buf t rest ht hpre]
      | endElement n =>
          have hn : isLeafName n = false := by
            simpa [extractSkips] using he
          simp [extractNext, hn, charConcat, ih buf t rest ht hpre]
      | characters s =>
          simp [extractNext, charConcat, ih (buf ++ s) t rest ht hpre,
            String.append_assoc]
      | endDocument =>
          simp [extractNext, charConcat, ih buf t rest ht hpre]
      | err =>
          simp [extractSkips] at he
      | other =>
          simp [extractNext, charConcat, ih buf t rest ht hpre]

/-- C1: immediately after a start-tag of one of the six leaf tags, the
leaf-value extractor `extract_next_string` returns exactly the in-order
concatenation of the text of all character-data events up to the first
end-tag whose local name is one of the six leaf tags; any other end-tag in
between (and any start-tag or other non-character event) is ignored, no
matter how many character-data events the text is split across. -/
theorem extract_next_string_concatenates (pre : List XmlEvt)
    (t : String) (rest : List XmlEvt)
    (ht : isLeafName t = true)
    (hskip : ∀ e ∈ pre, extractSkips e = true) :
    extractNext "" (pre ++ .endElement t :: rest) =
      .ok (charConcat pre) rest := by
  have h := extractNext_concat pre "" t rest ht hskip
  rw [h, String.empty_append]

/-- Witness for C1 at a concrete input: the text "Japan" split into two
character-data events with an ignored foreign end-tag in between. -/
theorem extract_next_string_concatenates_witness :
    extractNext ""
        [.characters "Ja", .other, .endElement "k_ele",
         .characters "pan", .endElement "gloss", .endDocument] =
      .ok "Japan" [.endDocument] := by
  have h := extract_next_string_concatenates
    [.characters "Ja", .other, .endElement "k_ele", .characters "pan"]
    "gloss" [.endDocument] (by decide) (by decide)
  simpa using h

/-- Core lemma for C7: if a reader error (xml-rs's signal for a byte stream
that ends before the expected closing tag) is reached before any leaf-named
end-tag, `extract_next_string` panics on its `parser.next().unwrap()`. -/
theorem extractNext_err (pre : List XmlEvt) :
    ∀ (buf : String) (rest : List XmlEvt),
      (∀ e ∈ pre, extractSkips e = true) →
      extractNext buf (pre ++ .err :: rest) = .panicked := by
  induction pre with
  | nil =>
      intro buf rest _
      simp [extractNext]
  | cons e pre ih =>
      intro buf rest hskip
      have he : extractSkips e = true := hskip e (List.mem_cons_self e pre)
      have hpre : ∀ e' ∈ pre, extractSkips e' = true := by
        intro e' he'
        exact hskip e' (List.mem_cons_of_mem e he')
      cases e with
      | startElement n => simp [extractNext, ih buf rest hpre]
      | endElement n =>
          have hn : isLeafName n = false := by
            simpa [extractSkips] using he
          simp [extractNext, hn, ih buf rest hpre]
      | characters s => simp [extractNext, ih (buf ++ s) rest hpre]
      | endDocument => simp [extractNext, ih buf rest hpre]
      | err => simp [extractSkips] at he
      | other => simp [extractNext, ih buf rest hpre]

/-- C7: if the event stream ends before the expected closing leaf tag
(xml-rs reports a premature end of the byte stream inside an element as an
`Err` from `next()`), `extract_next_string` fails — its
`parser.next().unwrap()` turns the reader error into a fatal panic, the
implementation's structural-error path.  It neither swallows the condition
(returns no `ok` value) nor fails to return (does not hang). -/
theorem extract_next_string_premature_end_fails (pre : List XmlEvt)
    (rest : List XmlEvt)
    (hskip : ∀ e ∈ pre, extractSkips e = true) :
    extractNext "" (pre ++ .err :: rest) = .panicked :=
  extractNext_err pre "" rest hskip

/-- Witness for C7 at a concrete input: the stream dies after a partial
character run inside a leaf element. -/
theorem extract_next_string_premature_end_fails_witness :
    extractNext "" [.characters "Jap", .err] = .panicked := by
  have h := extract_next_string_premature_end_fails
    [.characters "Jap"] [] (by decide)
  simpa using h

/-- C3: the main parse loop of `create_index` terminates as soon as it
observes the end-of-stream marker: from any loop state, with any remaining
source contents (including the repeated `EndDocument`s the xml-rs reader
yields once the document has ended — they are never consumed), the loop
finishes immediately with the state untouched, so the marker is processed
exactly once, no further iteration happens, and no entry is emitted twice.
The second conjunct covers the exhausted source, whose every `next()`
yields the marker. -/
theorem main_loop_stops_at_first_end_document (rom : String → String)
    (fuel : Nat) (st : LoopState) (rest : List XmlEvt) :
    runLoop rom (fuel + 1) st (.endDocument :: rest) = some (.finished st) ∧
      runLoop rom (fuel + 1) st [] = some (.finished st) := by
  exact ⟨rfl, rfl⟩

/-- C4: on the one-entry fragment (ent_seq 1, keb 日本, reb にほん, one
sense with glosses Japan/Japanese, pos noun/proper noun, field
place/country) `create_index` emits exactly one record with id 1, the one
word, the one reading, its romanization, and the three `"; "`-joined sense
strings; the build returns `Ok(())` having counted one entry. Parametric in
the romanizer `rom`, exactly as the claim is parametric in `romanize`. -/
theorem one_entry_fragment_record (rom : String → String) :
    create_index rom 30 c4Events =
      some { ret := .ok, committed := [c4Doc rom],
             progressReports := [], finalPrint := some 1 } := by
  rfl

/-- Counterexample to C2: on a stream whose first entry carries the
non-numeric ent_seq text "abc" and which is followed by a perfectly valid
second entry, the build does not reject just the affected entry and
continue — it panics on `entry_id.parse::<i64>().unwrap()`, aborting the
whole build: nothing is committed (not even the valid second entry), and
no final count is reported. -/
theorem ent_seq_parse_failure_aborts_build :
    create_index (fun s => s) 10
        [.startElement "entry",
         .startElement "ent_seq", .characters "abc", .endElement "ent_seq",
         .endElement "entry",
         .startElement "entry", .endElement "entry",
         .endDocument] =
      some { ret := .panicked .entSeqParseUnwrap, committed := [],
             progressReports := [], finalPrint := none } := by
  rfl

/-- C2 amended: when the character data read for `ent_seq` fails to parse
as a 64-bit signed integer, the failure is a process-ending panic, not a
recoverable per-entry error: the `ent_seq` handler panics on its
`.unwrap()` (first conjunct), a panicking step ends the whole loop with a
panic outcome (second conjunct), and a panicked build returns the panic
with nothing committed and no final count — the id is never silently
defaulted to 0 and the remaining entries are not processed (third
conjunct). -/
theorem ent_seq_parse_failure_panics :
    (∀ (rom : String → String) (st : LoopState) (rest rest' : List XmlEvt)
        (s : String) (d : Document),
        extractNext "" rest = .ok s rest' →
        st.currentEntry = some d →
        parseI64 s = none →
        stepMain rom st (.startElement "ent_seq") rest =
          .panic .entSeqParseUnwrap) ∧
    (∀ (rom : String → String) (fuel : Nat) (st : LoopState) (e : XmlEvt)
        (rest : List XmlEvt) (k : PanicKind),
        stepMain rom st e rest = .panic k →
        runLoop rom (fuel + 1) st (e :: rest) = some (.panicked k st)) ∧
    (∀ (rom : String → String) (fuel : Nat) (evs : List XmlEvt)
        (k : PanicKind) (st : LoopState),
        runLoop rom fuel initState evs = some (.panicked k st) →
        create_index rom fuel evs =
          some { ret := .panicked k, committed := [],
                 progressReports := st.progress, finalPrint := none }) := by
  refine ⟨?_, ?_, ?_⟩
  · intro rom st rest rest' s d hex hcur hparse
    simp [stepMain, hex, hcur, hparse]
  · intro rom fuel st e rest k hstep
    simp [runLoop, hstep]
  · intro rom fuel evs k st hrun
    simp [create_index, hrun]

/-- Witness for C2's amended theorem at concrete inputs. -/
theorem ent_seq_parse_failure_panics_witness :
    (stepMain (fun s => s) initState (.startElement "ent_seq")
        [.characters "abc", .endElement "ent_seq"] =
      .panic .entSeqParseUnwrap) ∧
    (runLoop (fun s => s) 1 initState
        [.startElement "ent_seq", .characters "abc", .endElement "ent_seq"] =
      some (.panicked .entSeqParseUnwrap initState)) ∧
    (create_index (fun s => s) 1
        [.startElement "ent_seq", .characters "abc", .endElement "ent_seq"] =
      some { ret := .panicked .entSeqParseUnwrap, committed := [],
             progressReports := [], finalPrint := none }) := by
  refine ⟨?_, ?_, ?_⟩
  · exact ent_seq_parse_failure_panics.1 (fun s => s) initState
      [.characters "abc", .endElement "ent_seq"] [] "abc" Document.empty
      (by decide) (by decide) (by decide)
  · exact ent_seq_parse_failure_panics.2.1 (fun s => s) 0 initState
      (.startElement "ent_seq") [.characters "abc", .endElement "ent_seq"]
      .entSeqParseUnwrap
      (ent_seq_parse_failure_panics.1 (fun s => s) initState
        [.characters "abc", .endElement "ent_seq"] [] "abc" Document.empty
        (by decide) (by decide) (by decide))
  · exact ent_seq_parse_failure_panics.2.2 (fun s => s) 1
      [.startElement "ent_seq", .characters "abc", .endElement "ent_seq"]
      .entSeqParseUnwrap initState (by decide)

theorem progressMarks_succ (n : Nat) :
    progressMarks (n + 1) =
      progressMarks n ++ (if (n + 1) % 1000 = 0 then [n + 1] else []) := rfl

/-- One loop iteration preserves the count/progress invariant. -/
theorem stepMain_countInv (rom : String → String) (st : LoopState)
    (e : XmlEvt) (rest : List XmlEvt) (st' : LoopState) (rest' : List XmlEvt)
    (hinv : CountInv st) (h : stepMain rom st e rest = .next st' rest') :
    CountInv st' := by
  obtain ⟨h1, h2⟩ := hinv
  cases e <;> simp only [stepMain] at h <;> (repeat' split at h) <;>
    first
      | exact StepRes.noConfusion h
      | (injection h with h3 h4
         subst h3
         refine ⟨?_, ?_⟩ <;> simp_all [progressMarks_succ])

/-- A `stop` outcome (first `EndDocument`, or a top-level reader error
ending the `while let`) leaves the loop state untouched. -/
theorem stepMain_stop_eq (rom : String → String) (st : LoopState)
    (e : XmlEvt) (rest : List XmlEvt) (st2 : LoopState)
    (h : stepMain rom st e rest = .stop st2) : st2 = st := by
  cases e <;> simp only [stepMain] at h <;> (repeat' split at h) <;>
    first
      | exact StepRes.noConfusion h
      | (injection h with h3; exact h3.symm)

/-- The count/progress invariant holds at every normal loop exit. -/
theorem runLoop_countInv (rom : String → String) :
    ∀ (fuel : Nat) (st : LoopState) (evs : List XmlEvt) (st' : LoopState),
      CountInv st → runLoop rom fuel st evs = some (.finished st') →
      CountInv st' := by
  intro fuel
  induction fuel with
  | zero =>
      intro st evs st' _ h
      simp [runLoop] at h
  | succ fuel ih =>
      intro st evs st' hinv h
      cases evs with
      | nil =>
          simp [runLoop] at h
          exact h ▸ hinv
      | cons e rest =>
          rw [runLoop] at h
          cases hstep : stepMain rom st e rest with
          | next st2 rest2 =>
              rw [hstep] at h
              exact ih st2 rest2 st'
                (stepMain_countInv rom st e rest st2 rest2 hinv hstep) h
          | stop st2 =>
              rw [hstep] at h
              simp at h
              rw [← h]
              exact (stepMain_stop_eq rom st e rest st2 hstep) ▸ hinv
          | panic k =>
              rw [hstep] at h
              simp at h
          | hang =>
              rw [hstep] at h
              simp at h

/-- C9 amended: on every successful build (normal loop exit),
`create_index` returns unit — `Ok(())`, not the entry count; the count is
instead printed at the end (`finalPrint`), and it equals the number of
entries handed to the index writer; progress is reported at the fixed
cadence of every 1000 entries (the printed counts are exactly the
multiples of 1000 up to the total). -/
theorem build_returns_unit_and_reports_progress
    (rom : String → String) (fuel : Nat) (evs : List XmlEvt)
    (st' : LoopState)
    (h : runLoop rom fuel initState evs = some (.finished st')) :
    create_index rom fuel evs =
      some { ret := .ok, committed := st'.emitted,
             progressReports := st'.progress, finalPrint := some st'.count } ∧
    st'.count = st'.emitted.length ∧
    st'.progress = progressMarks st'.count := by
  have hinv : CountInv initState := ⟨rfl, rfl⟩
  have h2 := runLoop_countInv rom fuel initState evs st' hinv h
  exact ⟨by simp [create_index, h], h2.1, h2.2⟩

/-- Witness for C9's amended theorem at a concrete two-entry stream. -/
theorem build_returns_unit_and_reports_progress_witness :
    create_index (fun s => s) 6
        [.startElement "entry", .endElement "entry",
         .startElement "entry", .endElement "entry", .endDocument] =
      some { ret := .ok, committed := [Document.empty, Document.empty],
             progressReports := [], finalPrint := some 2 } := by
  have h := build_returns_unit_and_reports_progress (fun s => s) 6
    [.startElement "entry", .endElement "entry",
     .startElement "entry", .endElement "entry", .endDocument]
    { glosses := [], poses := [], fieldsBuf := [], currentEntry := none,
      count := 2, emitted := [Document.empty, Document.empty],
      progress := [] }
    (by decide)
  simpa using h.1

/-- Counterexample to C9: `create_index` does not return the number of
entries processed.  Two builds that process different numbers of entries
(one entry vs two entries, visible in the final printed count and the
committed documents) both return the same bare `Ok(())`: the return value
carries no entry count. -/
theorem build_return_value_carries_no_count :
    (create_index (fun s => s) 4
        [.startElement "entry", .endElement "entry", .endDocument] =
      some { ret := .ok, committed := [Document.empty],
             progressReports := [], finalPrint := some 1 }) ∧
    (create_index (fun s => s) 6
        [.startElement "entry", .endElement "entry",
         .startElement "entry", .endElement "entry", .endDocument] =
      some { ret := .ok, committed := [Document.empty, Document.empty],
             progressReports := [], finalPrint := some 2 }) := by
  exact ⟨rfl, rfl⟩

/-- Counterexample to C8: `current_entry` is NOT absent before the first
`entry` start-tag — `create_index` initialises it to
`Some(tantivy::Document::default())` (indexer.rs:72), so it is present
from the very start of the loop. -/
theorem current_entry_present_initially :
    initState.currentEntry = some Document.empty ∧
      ¬(initState.currentEntry = none) := by
  exact ⟨rfl, by simp [initState]⟩

/-- C8 amended: `current_entry` is present (as an empty placeholder
document) already before the first `entry` start-tag (first conjunct, the
deviation from the claim); from then on its presence tracks the open entry
exactly: an `entry` start-tag makes it a fresh present document (second
conjunct), a processed `entry` end-tag emits it and makes it absent (third
conjunct), while it is absent every other event keeps it absent — only an
`entry` start-tag can make it present again (fourth conjunct) — and while
it is present every event other than the `entry` end-tag keeps it present
(fifth conjunct). -/
theorem current_entry_lifecycle :
    (initState.currentEntry = some Document.empty) ∧
    (∀ (rom : String → String) (st : LoopState) (rest : List XmlEvt),
        stepMain rom st (.startElement "entry") rest =
          .next { st with currentEntry := some Document.empty } rest) ∧
    (∀ (rom : String → String) (st : LoopState) (rest : List XmlEvt)
        (d : Document), st.currentEntry = some d →
        ∃ st', stepMain rom st (.endElement "entry") rest = .next st' rest ∧
          st'.currentEntry = none ∧ st'.emitted = st.emitted ++ [d]) ∧
    (∀ (rom : String → String) (st : LoopState) (e : XmlEvt)
        (rest : List XmlEvt) (st' : LoopState) (rest' : List XmlEvt),
        st.currentEntry = none →
        e ≠ .startElement "entry" →
        stepMain rom st e rest = .next st' rest' →
        st'.currentEntry = none) ∧
    (∀ (rom : String → String) (st : LoopState) (e : XmlEvt)
        (rest : List XmlEvt) (st' : LoopState) (rest' : List XmlEvt),
        st.currentEntry.isSome →
        e ≠ .endElement "entry" →
        stepMain rom st e rest = .next st' rest' →
        st'.currentEntry.isSome) := by
  refine ⟨rfl, ?_, ?_, ?_, ?_⟩
  · intro rom st rest
    simp [stepMain]
  · intro rom st rest d hd
    refine ⟨{ st with
              currentEntry := none
              count := st.count + 1
              emitted := st.emitted ++ [d]
              progress := if (st.count + 1) % 1000 = 0
                then st.progress ++ [st.count + 1] else st.progress },
            by simp [stepMain, hd], rfl, rfl⟩
  · intro rom st e rest st' rest' hnone hne h
    cases e <;> simp only [stepMain] at h <;> (repeat' split at h) <;>
      first
        | exact StepRes.noConfusion h
        | (injection h with h3 h4
           subst h3
           simp_all)
  · intro rom st e rest st' rest' hsome hne h
    cases e <;> simp only [stepMain] at h <;> (repeat' split at h) <;>
      first
        | exact StepRes.noConfusion h
        | (injection h with h3 h4
           subst h3
           simp_all)

/-- Witness for C8's amended theorem at concrete inputs: one start-tag
application, one end-tag application, one absence-preserving step
(a `gloss`-free `sense` start while no entry is open), and one
presence-preserving step. -/
theorem current_entry_lifecycle_witness :
    (initState.currentEntry = some Document.empty) ∧
    (stepMain (fun s => s) initState (.startElement "entry") [] =
      .next { initState with currentEntry := some Document.empty } []) ∧
    (∃ st', stepMain (fun s => s) initState (.endElement "entry") [] =
        .next st' [] ∧ st'.currentEntry = none ∧
        st'.emitted = initState.emitted ++ [Document.empty]) ∧
    (∀ st' rest',
        stepMain (fun s => s)
            { initState with currentEntry := none } (.startElement "sense")
            [] = .next st' rest' →
        st'.currentEntry = none) ∧
    (∀ st' rest',
        stepMain (fun s => s) initState (.startElement "sense") [] =
          .next st' rest' →
        st'.currentEntry.isSome) := by
  refine ⟨current_entry_lifecycle.1,
    current_entry_lifecycle.2.1 (fun s => s) initState [],
    current_entry_lifecycle.2.2.1 (fun s => s) initState [] Document.empty
      (by decide),
    ?_, ?_⟩
  · intro st' rest' h
    exact current_entry_lifecycle.2.2.2.1 (fun s => s)
      { initState with currentEntry := none } (.startElement "sense")
      [] st' rest' (by decide) (by decide) h
  · intro st' rest' h
    exact current_entry_lifecycle.2.2.2.2 (fun s => s) initState
      (.startElement "sense") [] st' rest' (by decide) (by decide) h

/-- Auxiliary induction for C10: if every `ent_seq`/`keb`/`reb` start-tag
and every `entry` end-tag the main loop will dispatch on occurs while an
entry element is open, and the openness flag is backed by a present
`current_entry`, then the run never panics on a `current_entry` unwrap. -/
theorem wellPlaced_no_unwrap (rom : String → String) :
    ∀ (fuel : Nat) (opn : Bool) (st : LoopState) (evs : List XmlEvt),
      wellPlaced fuel opn evs = true →
      (opn = true → st.currentEntry.isSome) →
      isCurrentEntryPanic (runLoop rom fuel st evs) = false := by
  intro fuel
  induction fuel with
  | zero =>
      intro opn st evs _ _
      rfl
  | succ fuel ih =>
      intro opn st evs hwp hinv
      cases evs with
      | nil => rfl
      | cons e rest =>
          rw [runLoop]
          rw [wellPlaced.eq_def] at hwp
          cases e with
          | startElement n =>
              by_cases h1 : n = "entry"
              · subst h1
                simp only [stepMain, String.reduceEq, reduceIte, true_or, false_or, or_false, or_true, or_self, if_true, if_false] at hwp ⊢
                exact ih true _ rest hwp (fun _ => by simp)
              by_cases h2 : n = "sense"
              · subst h2
                simp only [stepMain, String.reduceEq, reduceIte, true_or, false_or, or_false, or_true, or_self, if_true, if_false] at hwp ⊢
                refine ih opn _ rest hwp (fun h => ?_)
                simpa using hinv h
              by_cases h3 : n = "ent_seq"
              · subst h3
                simp only [stepMain, String.reduceEq, reduceIte, true_or, false_or, or_false, or_true, or_self, if_true, if_false] at hwp ⊢
                generalize hex : extractNext "" rest = xres at hwp ⊢
                cases xres with
                | ok s rest2 =>
                    rw [Bool.and_eq_true] at hwp
                    obtain ⟨hopn, hrest⟩ := hwp
                    obtain ⟨d, hd⟩ := Option.isSome_iff_exists.mp (hinv hopn)
                    rw [hd]
                    dsimp only
                    cases hp : parseI64 s with
                    | none => rfl
                    | some v => exact ih opn _ rest2 hrest (fun _ => by simp)
                | panicked => rfl
                | hang => rfl
              by_cases h4 : n = "keb"
              · subst h4
                simp only [stepMain, String.reduceEq, reduceIte, true_or, false_or, or_false, or_true, or_self, if_true, if_false] at hwp ⊢
                generalize hex : extractNext "" rest = xres at hwp ⊢
                cases xres with
                | ok s rest2 =>
                    rw [Bool.and_eq_true] at hwp
                    obtain ⟨hopn, hrest⟩ := hwp
                    obtain ⟨d, hd⟩ := Option.isSome_iff_exists.mp (hinv hopn)
                    rw [hd]
                    exact ih opn _ rest2 hrest (fun _ => by simp)
                | panicked => rfl
                | hang => rfl
              by_cases h5 : n = "reb"
              · subst h5
                simp only [stepMain, String.reduceEq, reduceIte, true_or, false_or, or_false, or_true, or_self, if_true, if_false] at hwp ⊢
                generalize hex : extractNext "" rest = xres at hwp ⊢
                cases xres with
                | ok s rest2 =>
                    rw [Bool.and_eq_true] at hwp
                    obtain ⟨hopn, hrest⟩ := hwp
                    obtain ⟨d, hd⟩ := Option.isSome_iff_exists.mp (hinv hopn)
                    rw [hd]
                    exact ih opn _ rest2 hrest (fun _ => by simp)
                | panicked => rfl
                | hang => rfl
              by_cases h6 : n = "gloss"
              · subst h6
                simp only [stepMain, String.reduceEq, reduceIte, true_or, false_or, or_false, or_true, or_self, if_true, if_false] at hwp ⊢
                generalize hex : extractNext "" rest = xres at hwp ⊢
                cases xres with
                | ok s rest2 =>
                    refine ih opn _ rest2 hwp (fun h => ?_)
                    simpa using hinv h
                | panicked => rfl
                | hang => rfl
              by_cases h7 : n = "pos"
              · subst h7
                simp only [stepMain, String.reduceEq, reduceIte, true_or, false_or, or_false, or_true, or_self, if_true, if_false] at hwp ⊢
                generalize hex : extractNext "" rest = xres at hwp ⊢
                cases xres with
                | ok s rest2 =>
                    refine ih opn _ rest2 hwp (fun h => ?_)
                    simpa using hinv h
                | panicked => rfl
                | hang => rfl
              by_cases h8 : n = "field"
              · subst h8
                simp only [stepMain, String.reduceEq, reduceIte, true_or, false_or, or_false, or_true, or_self, if_true, if_false] at hwp ⊢
                generalize hex : extractNext "" rest = xres at hwp ⊢
                cases xres with
                | ok s rest2 =>
                    refine ih opn _ rest2 hwp (fun h => ?_)
                    simpa using hinv h
                | panicked => rfl
                | hang => rfl
              · have hA : ¬(n = "ent_seq" ∨ n = "keb" ∨ n = "reb") := by
                  simp [h3, h4, h5]
                have hB : ¬(n = "gloss" ∨ n = "pos" ∨ n = "field") := by
                  simp [h6, h7, h8]
                simp only [stepMain, if_neg h1, if_neg h2, if_neg h3,
                  if_neg h4, if_neg h5, if_neg h6, if_neg h7, if_neg h8,
                  if_neg hA, if_neg hB] at hwp ⊢
                exact ih opn st rest hwp hinv
          | endElement n =>
              by_cases h1 : n = "entry"
              · subst h1
                simp only [stepMain, String.reduceEq, reduceIte, true_or, false_or, or_false, or_true, or_self, if_true, if_false, Bool.and_eq_true] at hwp ⊢
                obtain ⟨hopn, hrest⟩ := hwp
                obtain ⟨d, hd⟩ := Option.isSome_iff_exists.mp (hinv hopn)
                rw [hd]
                exact ih false _ rest hrest (fun h => by simp at h)
              by_cases h2 : n = "sense"
              · subst h2
                simp only [stepMain, String.reduceEq, reduceIte, true_or, false_or, or_false, or_true, or_self, if_true, if_false] at hwp ⊢
                cases hd : st.currentEntry with
                | none => exact ih opn st rest hwp hinv
                | some d => exact ih opn _ rest hwp (fun _ => by simp)
              · simp only [stepMain, if_neg h1, if_neg h2] at hwp ⊢
                exact ih opn st rest hwp hinv
          | characters s =>
              simp only [stepMain] at hwp ⊢
              exact ih opn st rest hwp hinv
          | other =>
              simp only [stepMain] at hwp ⊢
              exact ih opn st rest hwp hinv
          | endDocument => rfl
          | err => rfl

/-- C10: the absent-`current_entry` unwraps.  First conjunct: an `entry`
end-tag processed while `current_entry` is absent (by the lifecycle
theorem's characterisation this is exactly the window after a processed
`entry` end-tag and before the next `entry` start-tag) panics on
`current_entry.take().unwrap()` — this covers the second `entry` end-tag
in a row.  Second conjunct: an `ent_seq`, `keb` or `reb` start-tag
processed in that window panics on `current_entry.as_mut().unwrap()` once
its leaf value has been extracted.  Third conjunct, the converse: if every
such tag occurs while an entry element is open, no run from the initial
state ever reaches one of these unwrap panics. -/
theorem current_entry_unwrap_panics :
    (∀ (rom : String → String) (st : LoopState) (rest : List XmlEvt),
        st.currentEntry = none →
        stepMain rom st (.endElement "entry") rest =
          .panic .currentEntryUnwrap) ∧
    (∀ (rom : String → String) (st : LoopState) (rest rest' : List XmlEvt)
        (n s : String),
        (n = "ent_seq" ∨ n = "keb" ∨ n = "reb") →
        st.currentEntry = none →
        extractNext "" rest = .ok s rest' →
        stepMain rom st (.startElement n) rest =
          .panic .currentEntryUnwrap) ∧
    (∀ (rom : String → String) (fuel : Nat) (evs : List XmlEvt),
        wellPlaced fuel false evs = true →
        isCurrentEntryPanic (runLoop rom fuel initState evs) = false) := by
  refine ⟨?_, ?_, ?_⟩
  · intro rom st rest hnone
    simp [stepMain, hnone]
  · intro rom st rest rest' n s hn hnone hex
    rcases hn with rfl | rfl | rfl <;> simp [stepMain, hex, hnone]
  · intro rom fuel evs hwp
    exact wellPlaced_no_unwrap rom fuel false initState evs hwp
      (fun _ => rfl)

/-- Witness for C10 at concrete inputs: the two panics on a state whose
entry has already been emitted, and a panic-free well-placed run. -/
theorem current_entry_unwrap_panics_witness :
    (stepMain (fun s => s) { initState with currentEntry := none }
        (.endElement "entry") [] = .panic .currentEntryUnwrap) ∧
    (stepMain (fun s => s) { initState with currentEntry := none }
        (.startElement "keb") [.characters "日本", .endElement "keb"] =
      .panic .currentEntryUnwrap) ∧
    (isCurrentEntryPanic (runLoop (fun s => s) 4 initState
        [.startElement "entry", .endElement "entry", .endDocument]) =
      false) := by
  refine ⟨?_, ?_, ?_⟩
  · exact current_entry_unwrap_panics.1 (fun s => s)
      { initState with currentEntry := none } [] rfl
  · exact current_entry_unwrap_panics.2.1 (fun s => s)
      { initState with currentEntry := none }
      [.characters "日本", .endElement "keb"] [] "keb" "日本"
      (Or.inr (Or.inl rfl)) rfl (by decide)
  · exact current_entry_unwrap_panics.2.2 (fun s => s) 4
      [.startElement "entry", .endElement "entry", .endDocument] (by decide)

/-- C5: the query planner of `search` targets exactly the one named field
when a field restriction is given and exactly the four fields word,
reading, reading_romaji, meaning when it is absent; the token combination
is explicitly switched to conjunction — the freshly built parser starts in
tantivy's default disjunctive mode (last conjunct) and `search`
unconditionally calls `set_conjunction_by_default` — and execution is
delegated with the fixed result cap `TopDocs::with_limit(10)`, i.e. the
top 10 matches by descending relevance score. -/
theorem search_targets_fields_conjunction_cap :
    ((searchPlan none).qp.defaultFields =
        ["word", "reading", "reading_romaji", "meaning"]) ∧
    ((searchPlan (some .word)).qp.defaultFields = ["word"]) ∧
    ((searchPlan (some .reading)).qp.defaultFields = ["reading"]) ∧
    ((searchPlan (some .readingRomaji)).qp.defaultFields =
        ["reading_romaji"]) ∧
    ((searchPlan (some .meaning)).qp.defaultFields = ["meaning"]) ∧
    (∀ fieldArg, (searchPlan fieldArg).qp.conjunctionByDefault = true ∧
        (searchPlan fieldArg).limit = 10) ∧
    (∀ flds, (queryParserForIndex flds).conjunctionByDefault = false) := by
  refine ⟨rfl, rfl, rfl, rfl, rfl, ?_, fun _ => rfl⟩
  intro fieldArg
  cases fieldArg with
  | none => exact ⟨rfl, rfl⟩
  | some f => cases f <;> exact ⟨rfl, rfl⟩

/-- A separator-free character list is returned whole by the splitter. -/
theorem splitSemiChars_no_sep :
    ∀ (g : List Char), hasSepChars g = false → splitSemiChars g = [g] := by
  intro g
  induction g with
  | nil => intro _; rfl
  | cons c1 t ih =>
      intro h
      cases t with
      | nil => rfl
      | cons c2 r =>
          by_cases hc : c1 = ';' ∧ c2 = ' '
          · rw [show hasSepChars (c1 :: c2 :: r) =
                (if c1 = ';' ∧ c2 = ' ' then true
                 else hasSepChars (c2 :: r)) from rfl, if_pos hc] at h
            exact absurd h (by simp)
          · rw [show hasSepChars (c1 :: c2 :: r) =
                (if c1 = ';' ∧ c2 = ' ' then true
                 else hasSepChars (c2 :: r)) from rfl, if_neg hc] at h
            rw [show splitSemiChars (c1 :: c2 :: r) =
                (if c1 = ';' ∧ c2 = ' ' then [] :: splitSemiChars r
                 else headCons c1 (splitSemiChars (c2 :: r))) from rfl,
              if_neg hc, ih h]
            rfl

/-- Splitting a separator-free piece followed by the separator peels off
exactly that piece: the separator match cannot start inside the piece nor
straddle its boundary. -/
theorem splitSemiChars_append :
    ∀ (g r : List Char), hasSepChars g = false →
      splitSemiChars (g ++ ';' :: ' ' :: r) = g :: splitSemiChars r := by
  intro g
  induction g with
  | nil => intro r _; rfl
  | cons c1 t ih =>
      intro r h
      cases t with
      | nil =>
          have hc : ¬(c1 = ';' ∧ (';' : Char) = ' ') := by
            rintro ⟨-, h2⟩
            exact absurd h2 (by decide)
          show splitSemiChars (c1 :: ';' :: ' ' :: r) = [c1] :: splitSemiChars r
          rw [show splitSemiChars (c1 :: ';' :: ' ' :: r) =
              (if c1 = ';' ∧ (';' : Char) = ' '
               then [] :: splitSemiChars (' ' :: r)
               else headCons c1 (splitSemiChars (';' :: ' ' :: r)))
              from rfl, if_neg hc]
          rfl
      | cons c2 t2 =>
          by_cases hc : c1 = ';' ∧ c2 = ' '
          · rw [show hasSepChars (c1 :: c2 :: t2) =
                (if c1 = ';' ∧ c2 = ' ' then true
                 else hasSepChars (c2 :: t2)) from rfl, if_pos hc] at h
            exact absurd h (by simp)
          · rw [show hasSepChars (c1 :: c2 :: t2) =
                (if c1 = ';' ∧ c2 = ' ' then true
                 else hasSepChars (c2 :: t2)) from rfl, if_neg hc] at h
            rw [show splitSemiChars ((c1 :: c2 :: t2) ++ ';' :: ' ' :: r) =
                (if c1 = ';' ∧ c2 = ' '
                 then [] :: splitSemiChars (t2 ++ ';' :: ' ' :: r)
                 else headCons c1
                   (splitSemiChars ((c2 :: t2) ++ ';' :: ' ' :: r)))
                from rfl, if_neg hc, ih r h]
            rfl

/-- Splitting undoes joining on any nonempty list of separator-free
pieces. -/
theorem splitSemiChars_joinSemiChars :
    ∀ (gs : List (List Char)), gs ≠ [] →
      (∀ g ∈ gs, hasSepChars g = false) →
      splitSemiChars (joinSemiChars gs) = gs := by
  intro gs
  induction gs with
  | nil => intro h _; exact absurd rfl h
  | cons g t ih =>
      intro _ hall
      cases t with
      | nil => exact splitSemiChars_no_sep g (hall g (List.mem_cons_self g []))
      | cons g2 t2 =>
          rw [show joinSemiChars (g :: g2 :: t2) =
              g ++ ';' :: ' ' :: joinSemiChars (g2 :: t2) from rfl,
            splitSemiChars_append g _ (hall g (List.mem_cons_self g _)),
            ih (by simp) (fun x hx => hall x (List.mem_cons_of_mem g hx))]

theorem string_mk_data (s : String) : String.mk s.data = s := by
  cases s with
  | mk data => rfl

/-- The character data of a `rustJoin` is the character-level join. -/
theorem rustJoin_data :
    ∀ (gs : List String),
      (rustJoin gs).data = joinSemiChars (gs.map String.data) := by
  intro gs
  induction gs with
  | nil => rfl
  | cons g t ih =>
      cases t with
      | nil => rfl
      | cons g2 t2 =>
          rw [show rustJoin (g :: g2 :: t2) =
              g ++ "; " ++ rustJoin (g2 :: t2) from rfl]
          rw [show joinSemiChars ((g :: g2 :: t2).map String.data) =
              g.data ++ ';' :: ' ' :: joinSemiChars ((g2 :: t2).map String.data)
              from rfl]
          rw [String.data_append, String.data_append, ih,
            show ("; " : String).data = [';', ' '] from rfl,
            List.append_assoc]
          rfl

/-- C6 amended: the `"; "`-join performed on the gloss buffer at each
`sense` end-tag and the renderer's `"; "`-split are mutually inverse for
every sense with AT LEAST ONE gloss, each gloss containing no literal
`"; "` substring; the round-trip is lossless under that precondition.
(For the empty gloss sequence the round-trip is not the identity — see the
counterexample.) -/
theorem sense_meaning_roundtrip (gs : List String) (hne : gs ≠ [])
    (hsep : ∀ g ∈ gs, containsSep g = false) :
    renderMeaningTokens (rustJoin gs) = gs := by
  show (splitSemiChars (rustJoin gs).data).map (fun l => String.mk l) = gs
  rw [rustJoin_data, splitSemiChars_joinSemiChars (gs.map String.data)
    (by simpa using hne)
    (by
      intro g' hg'
      obtain ⟨g, hg, rfl⟩ := List.mem_map.mp hg'
      exact hsep g hg)]
  simp [Function.comp_def, string_mk_data]

/-- Witness for C6's amended theorem at the concrete C4 glosses. -/
theorem sense_meaning_roundtrip_witness :
    renderMeaningTokens (rustJoin ["Japan", "Japanese"]) =
      ["Japan", "Japanese"] :=
  sense_meaning_roundtrip ["Japan", "Japanese"] (by decide) (by decide)

/-- Counterexample to C6: a sense with ZERO glosses (every one of its
glosses vacuously contains no `"; "`) stores the joined meaning `""`, and
the renderer's split of `""` yields `[""]`, not the original empty
sequence — the round-trip is not lossless for the empty gloss list, so the
claim's precondition ("each gloss contains no `\"; \"`") is not enough. -/
theorem empty_sense_roundtrip_fails :
    rustJoin [] = "" ∧
    renderMeaningTokens (rustJoin []) = [""] ∧
    ([""] : List String) ≠ ([] : List String) := by
  exact ⟨rfl, rfl, by simp⟩
